import Mathlib

/-!
Shallow embedding of the two reinforcement-learning example programs
(`LunarLander` DQN driver and `mountain_car_ddpg.cpp` DDPG driver).

The environment (a remote Gym TCP bridge) is modelled as a trace: each
`env.reset()` yields an observation and each `env.step(...)` yields an
observation / reward / done triple.  The agent's action selection lives in
the external mlpack library, so it is modelled as an arbitrary function of
the current total-step counter and the observation; every concrete run of
the programs corresponds to some such function, because the step counter
increments exactly once per step.  Rewards (C++ `double`) are modelled as
exact rationals.  The driver's calls into the library and its console
output are recorded in the state (`storeCalls`, `events`, `logLines`,
`allReturns`) so that theorems can speak about them.
-/

namespace RLGym

/-- An observation vector of fixed length `n` (8 for the lander task,
2 for the mountain-car task). -/
def Obs (n : Nat) : Type := { l : List ℚ // l.length = n }

instance (n : Nat) : DecidableEq (Obs n) := fun a b =>
  decidable_of_iff (a.val = b.val) Subtype.ext_iff.symm

/-- The fields read back from the environment after one `env.step(...)`:
`env.observation`, `env.reward` and `env.done`. -/
structure StepResult (σ : Type) where
  observation : σ
  reward : ℚ
  done : Bool
  deriving DecidableEq

/-- One episode of environment behaviour: the observation produced by
`env.reset()` followed by the successive step results.  The training loop's
do-while body always runs at least once per episode, so an episode carries
a first step separately from the rest. -/
structure Episode (σ : Type) where
  resetObs : σ
  firstStep : StepResult σ
  restSteps : List (StepResult σ)
  deriving DecidableEq

/-- The steps of an episode as one list. -/
def Episode.steps (e : Episode σ) : List (StepResult σ) :=
  e.firstStep :: e.restSteps

/-- The argument tuple of one
`replayMethod.Store(state, action, reward, nextState, done, discount)` call. -/
structure Transition (σ α : Type) where
  state : σ
  action : α
  reward : ℚ
  nextState : σ
  done : Bool
  discount : ℚ
  deriving DecidableEq

/-- Ghost record of one iteration of the training do-while body: the state
handed to the agent, the selected action, the scalar packed into the matrix
sent to `env.step`, the environment's reply, the `Store` call made, the
total-step counter after its increment, and how many learning-update calls
(`TrainAgent()` / `Update()`) the iteration performed. -/
structure StepEvent (σ α : Type) where
  state : σ
  action : α
  executed : ℚ
  reward : ℚ
  nextState : σ
  done : Bool
  stored : Transition σ α
  totalStepsAfter : Nat
  updates : Nat
  deriving DecidableEq

/-- Ghost record of one periodic progress line: the numeric values printed
(in print order) together with the data they were computed from
(`returnList` at print time, the average printed, the episode counter, the
just-finished episode's return and the total-step counter). -/
structure ProgressLine where
  printed : List ℚ
  window : List ℚ
  avgPrinted : ℚ
  episodesAt : Nat
  episodeReturnAt : ℚ
  stepsAt : Nat
  deriving DecidableEq

/-- The mutable state threaded through training: `agent.TotalSteps()`,
`agent.Deterministic()`, the caller's `episodes` counter and `returnList`,
plus ghost traces of the `Store` calls, the per-step events, the progress
lines printed, and every episode return ever pushed into `returnList`. -/
structure TrainState (σ α : Type) where
  totalSteps : Nat
  deterministic : Bool
  episodes : Nat
  returnList : List ℚ
  storeCalls : List (Transition σ α)
  logLines : List ProgressLine
  events : List (StepEvent σ α)
  allReturns : List ℚ
  deriving DecidableEq

/-- The parameters a `Train` run is wired with: the agent's action
selection (external library), the packing of the selected action into the
scalar sent to the environment, `config.ExplorationSteps()`, the number of
update calls made per post-exploration step (1 for the lander's single
`TrainAgent()`, `config.UpdateInterval()` for the mountain car's update
loop), the `consecutiveEpisodes` window bound, the logging period (5 for
the lander, 4 for the mountain car) and the numeric layout of a progress
line (window size, average, episode counter, episode return, total steps in;
printed numbers out). -/
structure TrainParams (σ α : Type) where
  selectAction : Nat → σ → α
  execAction : α → ℚ
  explorationSteps : Nat
  updatesPerStep : Nat
  consecutiveEpisodes : Nat
  logMod : Nat
  mkLine : Nat → ℚ → Nat → ℚ → Nat → List ℚ

/-- One iteration of the do-while body, before the loop-condition test:
set `agent.State()` from the current observation, select an action, pack
it, step the environment (reply `sr`), store the transition with discount
0.99, increment `TotalSteps`, and perform the learning updates unless
`Deterministic() || TotalSteps() < ExplorationSteps()`. -/
def runStep (p : TrainParams σ α) (curObs : σ) (sr : StepResult σ)
    (s : TrainState σ α) : TrainState σ α :=
  let a := p.selectAction s.totalSteps curObs
  let executed := p.execAction a
  let t : Transition σ α :=
    { state := curObs, action := a, reward := sr.reward,
      nextState := sr.observation, done := sr.done, discount := 99 / 100 }
  let totalSteps' := s.totalSteps + 1
  let upd := if s.deterministic || totalSteps' < p.explorationSteps then 0
             else p.updatesPerStep
  { s with
      totalSteps := totalSteps',
      storeCalls := s.storeCalls ++ [t],
      events := s.events ++
        [{ state := curObs, action := a, executed := executed,
           reward := sr.reward, nextState := sr.observation, done := sr.done,
           stored := t, totalStepsAfter := totalSteps', updates := upd }] }

/-- The inner do-while loop: run the body for each successive environment
reply, stopping after the first reply whose `done` flag is set (the
condition `!env.done` is tested after the body).  `acc` is the local
`episodeReturn` accumulator, to which each step adds `env.reward`. -/
def runEpisodeSteps (p : TrainParams σ α) (curObs : σ)
    (steps : List (StepResult σ)) (acc : ℚ) (s : TrainState σ α) :
    ℚ × TrainState σ α :=
  match steps with
  | [] => (acc, s)
  | sr :: rest =>
      let s' := runStep p curObs sr s
      let acc' := acc + sr.reward
      if sr.done then (acc', s')
      else runEpisodeSteps p sr.observation rest acc' s'

/-- The per-episode bookkeeping after the do-while loop exits:
`returnList.push_back(episodeReturn)`, `episodes += 1`, erase the oldest
entry when the list exceeds `consecutiveEpisodes`, compute the average of
the remaining entries, and print a progress line when
`episodes % logMod == 0`. -/
def finishEpisode (p : TrainParams σ α) (r : ℚ × TrainState σ α) :
    TrainState σ α :=
  let ret := r.1
  let s1 := r.2
  let rl1 := s1.returnList ++ [ret]
  let eps := s1.episodes + 1
  let rl2 := if p.consecutiveEpisodes < rl1.length then rl1.tail else rl1
  let avg := rl2.sum / (rl2.length : ℚ)
  let s2 := { s1 with
      returnList := rl2, episodes := eps,
      allReturns := s1.allReturns ++ [ret] }
  if eps % p.logMod == 0 then
    { s2 with logLines := s2.logLines ++
        [{ printed := p.mkLine rl2.length avg eps ret s2.totalSteps,
           window := rl2, avgPrinted := avg, episodesAt := eps,
           episodeReturnAt := ret, stepsAt := s2.totalSteps }] }
  else s2

/-- One iteration of the outer while loop: `env.reset()`, the do-while
over the episode's steps with `episodeReturn = 0`, then the bookkeeping. -/
def runEpisode (p : TrainParams σ α) (e : Episode σ) (s : TrainState σ α) :
    TrainState σ α :=
  finishEpisode p (runEpisodeSteps p e.resetObs (e.firstStep :: e.restSteps) 0 s)

/-- The outer while loop (`while (agent.TotalSteps() < numSteps)`), with an
explicit iteration bound `fuel`: each episode raises `totalSteps` by at
least one, so `numSteps - totalSteps` iterations always suffice, and
`TrainLoop_fuel_irrel` below shows any sufficient fuel gives the same
result.  The `i`-th `env.reset()` reads the `i`-th episode of the
environment trace. -/
def TrainLoop (p : TrainParams σ α) (env : Nat → Episode σ) (numSteps : Nat) :
    Nat → TrainState σ α → TrainState σ α
  | 0, s => s
  | fuel + 1, s =>
      if s.totalSteps < numSteps then
        TrainLoop p env numSteps fuel (runEpisode p (env s.episodes) s)
      else s

/-- The whole `Train` function: set `agent.Deterministic() = false`, then
run the while loop. -/
def Train (p : TrainParams σ α) (env : Nat → Episode σ) (numSteps : Nat)
    (s : TrainState σ α) : TrainState σ α :=
  TrainLoop p env numSteps (numSteps - s.totalSteps) { s with deterministic := false }

/-! ### Program instantiations -/

/-- `constexpr size_t stateDimension = 8;` in the lander program. -/
def stateDimension : Nat := 8

/-- `constexpr size_t actionSize = 4;` in the lander program. -/
def actionSize : Nat := 4

/-- The lander (DQN) driver's wiring of `Train`: the selected action is a
discrete index among `actionSize` choices, the matrix sent to the
environment holds `double(agent.Action().action)`, a single `TrainAgent()`
call is made per post-exploration step, progress is printed every 5th
episode in the order: window size, average return, episode counter,
episode return, total steps. -/
def landerParams (select : Nat → Obs stateDimension → Fin actionSize)
    (explorationSteps consecutiveEpisodes : Nat) :
    TrainParams (Obs stateDimension) (Fin actionSize) where
  selectAction := select
  execAction := fun a => (a.val : ℚ)
  explorationSteps := explorationSteps
  updatesPerStep := 1
  consecutiveEpisodes := consecutiveEpisodes
  logMod := 5
  mkLine := fun n avg eps ret steps =>
    [(n : ℚ), avg, (eps : ℚ), ret, (steps : ℚ)]

/-- The mountain-car observation dimension (`ContinuousActionEnv<2, 1>`). -/
def mcStateDimension : Nat := 2

/-- The mountain-car action dimension (`ContinuousActionEnv<2, 1>`): a
single continuous scalar, modelled as the value of `action[0]`. -/
def mcActionSize : Nat := 1

/-- The mountain-car (DDPG) driver's wiring of `Train`: the selected action
is a continuous scalar, the matrix sent to the environment holds
`double(agent.Action().action[0] * 2)`, `config.UpdateInterval()` calls to
`Update()` are made per post-exploration step, progress is printed every
4th episode in the order: window size, average return, episode return,
total steps (the episode counter is not printed). -/
def mcParams (select : Nat → Obs mcStateDimension → ℚ)
    (explorationSteps updateInterval consecutiveEpisodes : Nat) :
    TrainParams (Obs mcStateDimension) ℚ where
  selectAction := select
  execAction := fun a => a * 2
  explorationSteps := explorationSteps
  updatesPerStep := updateInterval
  consecutiveEpisodes := consecutiveEpisodes
  logMod := 4
  mkLine := fun n avg _eps ret steps => [(n : ℚ), avg, ret, (steps : ℚ)]

/-! ### The evaluation driver (the test loop of each program's `main`) -/

/-- Ghost record of one iteration of the evaluation loop. -/
structure EvalEvent (σ α : Type) where
  state : σ
  action : α
  executed : ℚ
  reward : ℚ
  done : Bool
  deriving DecidableEq

/-- The state of the evaluation loop: `agent.Deterministic()`, the local
`totalReward` and `totalSteps` accumulators, a ghost trace of the
iterations, and the `(totalSteps, totalReward)` pair printed when `done`
is reported (none while the loop runs). -/
structure EvalState (σ α : Type) where
  deterministic : Bool
  totalReward : ℚ
  totalSteps : Nat
  events : List (EvalEvent σ α)
  finalPrint : Option (Nat × ℚ)
  deriving DecidableEq

/-- The body of the evaluation `while (true)` loop: set the agent's state,
select an action, pack and execute it, add the reward, count the step, and
on `done` print the totals and break. -/
def evalSteps (select : Nat → σ → α) (exec : α → ℚ) (curObs : σ)
    (steps : List (StepResult σ)) (s : EvalState σ α) : EvalState σ α :=
  match steps with
  | [] => s
  | sr :: rest =>
      let a := select s.totalSteps curObs
      let s' : EvalState σ α :=
        { s with
            totalReward := s.totalReward + sr.reward,
            totalSteps := s.totalSteps + 1,
            events := s.events ++
              [{ state := curObs, action := a, executed := exec a,
                 reward := sr.reward, done := sr.done }] }
      if sr.done then { s' with finalPrint := some (s'.totalSteps, s'.totalReward) }
      else evalSteps select exec sr.observation rest s'

/-- One evaluation run: `agent.Deterministic() = true`, `envTest.reset()`,
`totalReward = 0`, `totalSteps = 0`, then the loop over the episode's
steps. -/
def Evaluate (select : Nat → σ → α) (exec : α → ℚ) (e : Episode σ) :
    EvalState σ α :=
  evalSteps select exec e.resetObs (e.firstStep :: e.restSteps)
    { deterministic := true, totalReward := 0, totalSteps := 0,
      events := [], finalPrint := none }

/-- The scalar the lander's evaluation loop sends to the environment:
`double(agent.Action().action)`. -/
def landerExec (a : Fin actionSize) : ℚ := (a.val : ℚ)

/-- The scalar the mountain-car evaluation loop sends to the environment:
`double(agent.Action().action[0] * 2)`. -/
def mcExec (a : ℚ) : ℚ := a * 2

/-! ### Declarative descriptions of a run, for stating the theorems -/

/-- The steps of an episode the loops actually consume: everything up to
and including the first step whose `done` flag is set. -/
def consumedSteps (steps : List (StepResult σ)) : List (StepResult σ) :=
  match steps with
  | [] => []
  | sr :: rest => if sr.done then [sr] else sr :: consumedSteps rest

/-- The observation handed to the agent at each consumed step: the reset
observation first, then each step's own observation for the step after
it. -/
def statesOf (o : σ) (steps : List (StepResult σ)) : List σ :=
  match steps with
  | [] => []
  | sr :: rest => o :: statesOf sr.observation rest

/-- The reset observations and consumed steps of the successive episodes a
training run starting at the given counters processes, with the same
iteration bound as `TrainLoop`. -/
def TrainEpisodesF (env : Nat → Episode σ) (numSteps : Nat) :
    Nat → Nat → Nat → List (σ × List (StepResult σ))
  | 0, _, _ => []
  | fuel + 1, totalSteps, episodes =>
      if totalSteps < numSteps then
        let e := env episodes
        let c := consumedSteps (e.firstStep :: e.restSteps)
        (e.resetObs, c) ::
          TrainEpisodesF env numSteps fuel (totalSteps + c.length) (episodes + 1)
      else []

/-- The reset observations and consumed steps of the successive episodes a
training run starting at the given counters processes. -/
def TrainEpisodes (env : Nat → Episode σ) (numSteps totalSteps episodes : Nat) :
    List (σ × List (StepResult σ)) :=
  TrainEpisodesF env numSteps (numSteps - totalSteps) totalSteps episodes

/-- The last `n` entries of a list, most recent last. -/
def lastN (n : Nat) (l : List ℚ) : List ℚ := l.drop (l.length - n)

/-- Processing of an already-consumed step list, with no early-exit test:
on the lists `consumedSteps` produces this agrees with `runEpisodeSteps`
(lemma `runEpisodeSteps_eq_processSteps`) and is structurally easier to
reason about. -/
def processSteps (p : TrainParams σ α) (curObs : σ)
    (steps : List (StepResult σ)) (acc : ℚ) (s : TrainState σ α) :
    ℚ × TrainState σ α :=
  match steps with
  | [] => (acc, s)
  | sr :: rest =>
      processSteps p sr.observation rest (acc + sr.reward) (runStep p curObs sr s)

/-- The step events one do-while pass generates, described directly from
the consumed environment replies: the observation chain, the selected
actions (indexed by the running step counter starting at `t0`), the packed
actions, the `Store` tuples with discount 0.99, and the update counts
gated by the deterministic flag and the exploration threshold. -/
def stepEvents (p : TrainParams σ α) (det : Bool) :
    Nat → σ → List (StepResult σ) → List (StepEvent σ α)
  | _, _, [] => []
  | t0, o, sr :: rest =>
      { state := o, action := p.selectAction t0 o,
        executed := p.execAction (p.selectAction t0 o),
        reward := sr.reward, nextState := sr.observation, done := sr.done,
        stored := { state := o, action := p.selectAction t0 o,
                    reward := sr.reward, nextState := sr.observation,
                    done := sr.done, discount := 99 / 100 },
        totalStepsAfter := t0 + 1,
        updates := if det || t0 + 1 < p.explorationSteps then 0
                   else p.updatesPerStep } ::
      stepEvents p det (t0 + 1) sr.observation rest

/-- The step events of a whole training run, episode by episode, with the
step counter threaded through. -/
def runEvents (p : TrainParams σ α) (det : Bool) :
    Nat → List (σ × List (StepResult σ)) → List (StepEvent σ α)
  | _, [] => []
  | t0, (o, c) :: rest =>
      stepEvents p det t0 o c ++ runEvents p det (t0 + c.length) rest

/-- Folding the per-episode transformer over a list of (reset observation,
consumed steps) pairs; `TrainLoop_eq_applyEpisodes` shows the while loop
equals this fold over `TrainEpisodesF`. -/
def applyEpisodes (p : TrainParams σ α) :
    TrainState σ α → List (σ × List (StepResult σ)) → TrainState σ α
  | s, [] => s
  | s, (o, c) :: rest =>
      applyEpisodes p (finishEpisode p (processSteps p o c 0 s)) rest

/-- The evaluation loop's events described directly from the consumed
steps, with the local step counter starting at `t0`. -/
def evalEvents (select : Nat → σ → α) (exec : α → ℚ) :
    Nat → σ → List (StepResult σ) → List (EvalEvent σ α)
  | _, _, [] => []
  | t0, o, sr :: rest =>
      { state := o, action := select t0 o, executed := exec (select t0 o),
        reward := sr.reward, done := sr.done } ::
      evalEvents select exec (t0 + 1) sr.observation rest

/-! ### Concrete data for exercising the model -/

/-- A concrete mountain-car observation. -/
def obs2 : Obs mcStateDimension := ⟨[0, 0], rfl⟩

/-- A concrete lander observation. -/
def obs8 : Obs stateDimension := ⟨[0, 0, 0, 0, 0, 0, 0, 0], rfl⟩

/-- A mountain-car environment trace whose every episode has two steps
with rewards 3 and 4 and `done` on the second. -/
def mcEnv2 : Nat → Episode (Obs mcStateDimension) := fun _ =>
  { resetObs := obs2,
    firstStep := { observation := obs2, reward := 3, done := false },
    restSteps := [{ observation := obs2, reward := 4, done := true }] }

/-- A mountain-car environment trace of single-step episodes with
reward 1. -/
def mcEnv1 : Nat → Episode (Obs mcStateDimension) := fun _ =>
  { resetObs := obs2,
    firstStep := { observation := obs2, reward := 1, done := true },
    restSteps := [] }

/-- A lander environment trace of single-step episodes with reward 2. -/
def landerEnv1 : Nat → Episode (Obs stateDimension) := fun _ =>
  { resetObs := obs8,
    firstStep := { observation := obs8, reward := 2, done := true },
    restSteps := [] }

/-- The training state at the start of each program's `main`: all counters
zero, all lists empty. -/
def initState (σ α : Type) : TrainState σ α :=
  { totalSteps := 0, deterministic := false, episodes := 0, returnList := [],
    storeCalls := [], logLines := [], events := [], allReturns := [] }

/-- The mountain-car wiring with `main`'s configuration
(`ExplorationSteps = 3200`, `UpdateInterval = 1`, `consecutiveEpisodes = 25`)
and an agent that always selects action 0. -/
def mcParams0 : TrainParams (Obs mcStateDimension) ℚ :=
  mcParams (fun _ _ => 0) 3200 1 25

/-- The lander wiring with `main`'s configuration
(`ExplorationSteps = 100`, `consecutiveEpisodes = 50`) and an agent that
always selects action index 0. -/
def landerParams0 : TrainParams (Obs stateDimension) (Fin actionSize) :=
  landerParams (fun _ _ => ⟨0, by decide⟩) 100 50

/-- The single step event of running `mcParams0` on one `mcEnv1` episode. -/
def mcEv0 : StepEvent (Obs mcStateDimension) ℚ :=
  { state := obs2, action := 0, executed := 0, reward := 1, nextState := obs2,
    done := true,
    stored := { state := obs2, action := 0, reward := 1, nextState := obs2,
                done := true, discount := 99 / 100 },
    totalStepsAfter := 1, updates := 0 }

/-- The single step event of running `landerParams0` on one `landerEnv1`
episode. -/
def landerEv0 : StepEvent (Obs stateDimension) (Fin actionSize) :=
  { state := obs8, action := ⟨0, by decide⟩, executed := 0, reward := 2,
    nextState := obs8, done := true,
    stored := { state := obs8, action := ⟨0, by decide⟩, reward := 2,
                nextState := obs8, done := true, discount := 99 / 100 },
    totalStepsAfter := 1, updates := 0 }

/-- The progress line printed after the fifth episode of running
`landerParams0` on `landerEnv1` from the initial state. -/
def line5 : ProgressLine :=
  { printed := [5, 2, 5, 2, 5], window := [2, 2, 2, 2, 2], avgPrinted := 2,
    episodesAt := 5, episodeReturnAt := 2, stepsAt := 5 }

/-! ### Lemmas: loop structure and model adequacy -/

lemma runStep_totalSteps (p : TrainParams σ α) (curObs : σ) (sr : StepResult σ)
    (s : TrainState σ α) :
    (runStep p curObs sr s).totalSteps = s.totalSteps + 1 := rfl

lemma runEpisodeSteps_totalSteps_le (p : TrainParams σ α) (curObs : σ)
    (steps : List (StepResult σ)) (acc : ℚ) (s : TrainState σ α) :
    s.totalSteps ≤ (runEpisodeSteps p curObs steps acc s).2.totalSteps := by
  induction steps generalizing curObs acc s with
  | nil => exact Nat.le_refl _
  | cons sr rest ih =>
      by_cases h : sr.done
      · simp [runEpisodeSteps, h, runStep_totalSteps]
      · simp only [runEpisodeSteps, h, if_neg, Bool.false_eq_true, if_false]
        calc s.totalSteps ≤ (runStep p curObs sr s).totalSteps := by
              rw [runStep_totalSteps]; exact Nat.le_succ _
          _ ≤ _ := ih _ _ _

lemma runEpisodeSteps_totalSteps_lt (p : TrainParams σ α) (curObs : σ)
    (sr : StepResult σ) (rest : List (StepResult σ)) (acc : ℚ)
    (s : TrainState σ α) :
    s.totalSteps < (runEpisodeSteps p curObs (sr :: rest) acc s).2.totalSteps := by
  by_cases h : sr.done
  · simp [runEpisodeSteps, h, runStep_totalSteps]
  · simp only [runEpisodeSteps, h, Bool.false_eq_true, if_false]
    calc s.totalSteps < (runStep p curObs sr s).totalSteps := by
          rw [runStep_totalSteps]; exact Nat.lt_succ_self _
      _ ≤ _ := runEpisodeSteps_totalSteps_le _ _ _ _ _

lemma finishEpisode_totalSteps (p : TrainParams σ α) (r : ℚ × TrainState σ α) :
    (finishEpisode p r).totalSteps = r.2.totalSteps := by
  unfold finishEpisode
  dsimp only
  split <;> rfl

lemma runEpisode_totalSteps_lt (p : TrainParams σ α) (e : Episode σ)
    (s : TrainState σ α) :
    s.totalSteps < (runEpisode p e s).totalSteps := by
  unfold runEpisode
  rw [finishEpisode_totalSteps]
  exact runEpisodeSteps_totalSteps_lt _ _ _ _ _ _

lemma runStep_deterministic (p : TrainParams σ α) (curObs : σ)
    (sr : StepResult σ) (s : TrainState σ α) :
    (runStep p curObs sr s).deterministic = s.deterministic := rfl

lemma runEpisodeSteps_deterministic (p : TrainParams σ α) (curObs : σ)
    (steps : List (StepResult σ)) (acc : ℚ) (s : TrainState σ α) :
    (runEpisodeSteps p curObs steps acc s).2.deterministic = s.deterministic := by
  induction steps generalizing curObs acc s with
  | nil => rfl
  | cons sr rest ih =>
      by_cases h : sr.done
      · simp [runEpisodeSteps, h, runStep_deterministic]
      · simp only [runEpisodeSteps, h, Bool.false_eq_true, if_false]
        rw [ih, runStep_deterministic]

lemma TrainLoop_fuel_irrel (p : TrainParams σ α) (env : Nat → Episode σ)
    (numSteps : Nat) :
    ∀ fuel fuel' (s : TrainState σ α),
      numSteps ≤ s.totalSteps + fuel → numSteps ≤ s.totalSteps + fuel' →
      TrainLoop p env numSteps fuel s = TrainLoop p env numSteps fuel' s := by
  intro fuel
  induction fuel with
  | zero =>
      intro fuel' s h _
      have hge : ¬ s.totalSteps < numSteps := by omega
      cases fuel' with
      | zero => rfl
      | succ f' => simp [TrainLoop, hge]
  | succ f ih =>
      intro fuel' s h h'
      by_cases hlt : s.totalSteps < numSteps
      · cases fuel' with
        | zero => omega
        | succ f' =>
            simp only [TrainLoop, hlt, if_true]
            have hs := runEpisode_totalSteps_lt p (env s.episodes) s
            exact ih f' _ (by omega) (by omega)
      · cases fuel' with
        | zero => simp [TrainLoop, hlt]
        | succ f' => simp [TrainLoop, hlt]

/-- Model adequacy: `Train` satisfies exactly the unfolding equation of the
C++ while loop, so the fuel in its definition is invisible. -/
lemma Train_while_eq (p : TrainParams σ α) (env : Nat → Episode σ)
    (numSteps : Nat) (s : TrainState σ α) (hdet : s.deterministic = false) :
    Train p env numSteps s =
      if s.totalSteps < numSteps then
        Train p env numSteps (runEpisode p (env s.episodes) s)
      else s := by
  have hs : { s with deterministic := false } = s := by
    cases s; simp_all
  by_cases hlt : s.totalSteps < numSteps
  · have hfe : numSteps - s.totalSteps = (numSteps - s.totalSteps - 1) + 1 := by omega
    rw [Train, hs, hfe]
    simp only [TrainLoop, hlt, if_true]
    have hs' := runEpisode_totalSteps_lt p (env s.episodes) s
    have h1 : ({ runEpisode p (env s.episodes) s with deterministic := false } :
        TrainState σ α) = runEpisode p (env s.episodes) s := by
      have : (runEpisode p (env s.episodes) s).deterministic = false := by
        unfold runEpisode finishEpisode
        dsimp only
        split
        · simpa [runEpisodeSteps_deterministic] using hdet
        · simpa [runEpisodeSteps_deterministic] using hdet
      cases hrE : runEpisode p (env s.episodes) s
      simp_all
    rw [Train, h1]
    exact TrainLoop_fuel_irrel p env numSteps _ _ _ (by omega) (by omega)
  · have hf0 : numSteps - s.totalSteps = 0 := by omega
    rw [Train, hs, hf0, if_neg hlt]
    rfl

lemma consumedSteps_length_pos (sr : StepResult σ) (rest : List (StepResult σ)) :
    0 < (consumedSteps (sr :: rest)).length := by
  unfold consumedSteps
  split <;> simp

lemma runEpisodeSteps_eq_processSteps (p : TrainParams σ α) (curObs : σ)
    (steps : List (StepResult σ)) (acc : ℚ) (s : TrainState σ α) :
    runEpisodeSteps p curObs steps acc s =
      processSteps p curObs (consumedSteps steps) acc s := by
  induction steps generalizing curObs acc s with
  | nil => rfl
  | cons sr rest ih =>
      by_cases h : sr.done
      · simp [runEpisodeSteps, consumedSteps, processSteps, h]
      · simp only [runEpisodeSteps, consumedSteps, processSteps, h,
          Bool.false_eq_true, if_false]
        exact ih _ _ _

lemma processSteps_spec (p : TrainParams σ α) (curObs : σ)
    (steps : List (StepResult σ)) (acc : ℚ) (s : TrainState σ α) :
    processSteps p curObs steps acc s =
      (acc + (steps.map (·.reward)).sum,
       { s with
           totalSteps := s.totalSteps + steps.length,
           storeCalls := s.storeCalls ++
             (stepEvents p s.deterministic s.totalSteps curObs steps).map (·.stored),
           events := s.events ++
             stepEvents p s.deterministic s.totalSteps curObs steps }) := by
  induction steps generalizing curObs acc s with
  | nil => simp [processSteps, stepEvents]
  | cons sr rest ih =>
      simp only [processSteps, stepEvents, List.map_cons, List.sum_cons]
      rw [ih]
      simp [runStep, List.append_assoc, add_assoc, Nat.add_assoc, Nat.add_comm 1]

lemma finishEpisode_events (p : TrainParams σ α) (r : ℚ × TrainState σ α) :
    (finishEpisode p r).events = r.2.events := by
  unfold finishEpisode; dsimp only; split <;> rfl

lemma finishEpisode_storeCalls (p : TrainParams σ α) (r : ℚ × TrainState σ α) :
    (finishEpisode p r).storeCalls = r.2.storeCalls := by
  unfold finishEpisode; dsimp only; split <;> rfl

lemma finishEpisode_deterministic (p : TrainParams σ α) (r : ℚ × TrainState σ α) :
    (finishEpisode p r).deterministic = r.2.deterministic := by
  unfold finishEpisode; dsimp only; split <;> rfl

lemma finishEpisode_episodes (p : TrainParams σ α) (r : ℚ × TrainState σ α) :
    (finishEpisode p r).episodes = r.2.episodes + 1 := by
  unfold finishEpisode; dsimp only; split <;> rfl

lemma finishEpisode_allReturns (p : TrainParams σ α) (r : ℚ × TrainState σ α) :
    (finishEpisode p r).allReturns = r.2.allReturns ++ [r.1] := by
  unfold finishEpisode; dsimp only; split <;> rfl

lemma finishEpisode_returnList (p : TrainParams σ α) (r : ℚ × TrainState σ α) :
    (finishEpisode p r).returnList =
      if p.consecutiveEpisodes < (r.2.returnList ++ [r.1]).length
      then (r.2.returnList ++ [r.1]).tail else r.2.returnList ++ [r.1] := by
  unfold finishEpisode; dsimp only; split <;> rfl

/-- The episode loop of `TrainLoop` is the fold of the per-episode
transformer over the declarative episode list. -/
lemma TrainLoop_eq_applyEpisodes (p : TrainParams σ α) (env : Nat → Episode σ)
    (numSteps : Nat) :
    ∀ fuel (s : TrainState σ α),
      TrainLoop p env numSteps fuel s =
        applyEpisodes p s (TrainEpisodesF env numSteps fuel s.totalSteps s.episodes) := by
  intro fuel
  induction fuel with
  | zero => intro s; rfl
  | succ f ih =>
      intro s
      by_cases hlt : s.totalSteps < numSteps
      · simp only [TrainLoop, TrainEpisodesF, hlt, if_true]
        rw [ih]
        have hrE : runEpisode p (env s.episodes) s =
            finishEpisode p (processSteps p (env s.episodes).resetObs
              (consumedSteps ((env s.episodes).firstStep :: (env s.episodes).restSteps)) 0 s) := by
          unfold runEpisode
          rw [runEpisodeSteps_eq_processSteps]
        rw [hrE, applyEpisodes]
        have h1 : (finishEpisode p (processSteps p (env s.episodes).resetObs
            (consumedSteps ((env s.episodes).firstStep :: (env s.episodes).restSteps)) 0 s)).totalSteps =
            s.totalSteps + (consumedSteps ((env s.episodes).firstStep :: (env s.episodes).restSteps)).length := by
          rw [finishEpisode_totalSteps, processSteps_spec]
        have h2 : (finishEpisode p (processSteps p (env s.episodes).resetObs
            (consumedSteps ((env s.episodes).firstStep :: (env s.episodes).restSteps)) 0 s)).episodes =
            s.episodes + 1 := by
          rw [finishEpisode_episodes, processSteps_spec]
        rw [h1, h2]
      · simp [TrainLoop, TrainEpisodesF, hlt, applyEpisodes]

lemma applyEpisodes_events (p : TrainParams σ α) :
    ∀ (L : List (σ × List (StepResult σ))) (s : TrainState σ α),
      (applyEpisodes p s L).events =
        s.events ++ runEvents p s.deterministic s.totalSteps L := by
  intro L
  induction L with
  | nil => intro s; simp [applyEpisodes, runEvents]
  | cons oc rest ih =>
      intro s
      obtain ⟨o, c⟩ := oc
      simp only [applyEpisodes, runEvents]
      rw [ih, finishEpisode_events, finishEpisode_deterministic,
        finishEpisode_totalSteps, processSteps_spec]
      simp [List.append_assoc]

lemma applyEpisodes_storeCalls (p : TrainParams σ α) :
    ∀ (L : List (σ × List (StepResult σ))) (s : TrainState σ α),
      (applyEpisodes p s L).storeCalls =
        s.storeCalls ++ (runEvents p s.deterministic s.totalSteps L).map (·.stored) := by
  intro L
  induction L with
  | nil => intro s; simp [applyEpisodes, runEvents]
  | cons oc rest ih =>
      intro s
      obtain ⟨o, c⟩ := oc
      simp only [applyEpisodes, runEvents]
      rw [ih, finishEpisode_storeCalls, finishEpisode_deterministic,
        finishEpisode_totalSteps, processSteps_spec]
      simp [List.append_assoc]

lemma applyEpisodes_totalSteps (p : TrainParams σ α) :
    ∀ (L : List (σ × List (StepResult σ))) (s : TrainState σ α),
      (applyEpisodes p s L).totalSteps =
        s.totalSteps + (L.map (fun x => x.2.length)).sum := by
  intro L
  induction L with
  | nil => intro s; simp [applyEpisodes]
  | cons oc rest ih =>
      intro s
      obtain ⟨o, c⟩ := oc
      simp only [applyEpisodes, List.map_cons, List.sum_cons]
      rw [ih, finishEpisode_totalSteps, processSteps_spec]
      simp [Nat.add_assoc]

lemma applyEpisodes_episodes (p : TrainParams σ α) :
    ∀ (L : List (σ × List (StepResult σ))) (s : TrainState σ α),
      (applyEpisodes p s L).episodes = s.episodes + L.length := by
  intro L
  induction L with
  | nil => intro s; simp [applyEpisodes]
  | cons oc rest ih =>
      intro s
      obtain ⟨o, c⟩ := oc
      simp only [applyEpisodes, List.length_cons]
      rw [ih, finishEpisode_episodes, processSteps_spec]
      simp [Nat.add_assoc, Nat.add_comm 1]

lemma applyEpisodes_deterministic (p : TrainParams σ α) :
    ∀ (L : List (σ × List (StepResult σ))) (s : TrainState σ α),
      (applyEpisodes p s L).deterministic = s.deterministic := by
  intro L
  induction L with
  | nil => intro s; rfl
  | cons oc rest ih =>
      intro s
      obtain ⟨o, c⟩ := oc
      simp only [applyEpisodes]
      rw [ih, finishEpisode_deterministic, processSteps_spec]

lemma applyEpisodes_allReturns (p : TrainParams σ α) :
    ∀ (L : List (σ × List (StepResult σ))) (s : TrainState σ α),
      (applyEpisodes p s L).allReturns =
        s.allReturns ++ L.map (fun x => ((x.2.map (·.reward)).sum : ℚ)) := by
  intro L
  induction L with
  | nil => intro s; simp [applyEpisodes]
  | cons oc rest ih =>
      intro s
      obtain ⟨o, c⟩ := oc
      simp only [applyEpisodes, List.map_cons]
      rw [ih, finishEpisode_allReturns, processSteps_spec]
      simp [List.append_assoc]

/-! ### `Train`-level run descriptions -/

lemma Train_set_deterministic (s : TrainState σ α) :
    ({ s with deterministic := false } : TrainState σ α).totalSteps = s.totalSteps ∧
    ({ s with deterministic := false } : TrainState σ α).episodes = s.episodes := ⟨rfl, rfl⟩

lemma Train_events (p : TrainParams σ α) (env : Nat → Episode σ) (numSteps : Nat)
    (s : TrainState σ α) :
    (Train p env numSteps s).events =
      s.events ++ runEvents p false s.totalSteps
        (TrainEpisodes env numSteps s.totalSteps s.episodes) := by
  rw [Train, TrainLoop_eq_applyEpisodes, applyEpisodes_events, TrainEpisodes]

lemma Train_storeCalls (p : TrainParams σ α) (env : Nat → Episode σ) (numSteps : Nat)
    (s : TrainState σ α) :
    (Train p env numSteps s).storeCalls =
      s.storeCalls ++ (runEvents p false s.totalSteps
        (TrainEpisodes env numSteps s.totalSteps s.episodes)).map (·.stored) := by
  rw [Train, TrainLoop_eq_applyEpisodes, applyEpisodes_storeCalls, TrainEpisodes]

lemma Train_totalSteps (p : TrainParams σ α) (env : Nat → Episode σ) (numSteps : Nat)
    (s : TrainState σ α) :
    (Train p env numSteps s).totalSteps =
      s.totalSteps + ((TrainEpisodes env numSteps s.totalSteps s.episodes).map
        (fun x => x.2.length)).sum := by
  rw [Train, TrainLoop_eq_applyEpisodes, applyEpisodes_totalSteps, TrainEpisodes]

lemma Train_allReturns (p : TrainParams σ α) (env : Nat → Episode σ) (numSteps : Nat)
    (s : TrainState σ α) :
    (Train p env numSteps s).allReturns =
      s.allReturns ++ (TrainEpisodes env numSteps s.totalSteps s.episodes).map
        (fun x => ((x.2.map (·.reward)).sum : ℚ)) := by
  rw [Train, TrainLoop_eq_applyEpisodes, applyEpisodes_allReturns, TrainEpisodes]

/-! ### Lemmas: the shape of the recorded step events -/

lemma stepEvents_mem (p : TrainParams σ α) (det : Bool) :
    ∀ (c : List (StepResult σ)) (t0 : Nat) (o : σ) (ev : StepEvent σ α),
      ev ∈ stepEvents p det t0 o c →
      ev.stored = { state := ev.state, action := ev.action, reward := ev.reward,
                    nextState := ev.nextState, done := ev.done,
                    discount := 99 / 100 } ∧
      ev.executed = p.execAction ev.action ∧
      ev.updates = (if det || ev.totalStepsAfter < p.explorationSteps then 0
                    else p.updatesPerStep) := by
  intro c
  induction c with
  | nil => intro t0 o ev h; simp [stepEvents] at h
  | cons sr rest ih =>
      intro t0 o ev h
      rw [stepEvents, List.mem_cons] at h
      rcases h with h | h
      · subst h
        exact ⟨rfl, rfl, rfl⟩
      · exact ih _ _ _ h

lemma runEvents_mem (p : TrainParams σ α) (det : Bool) :
    ∀ (L : List (σ × List (StepResult σ))) (t0 : Nat) (ev : StepEvent σ α),
      ev ∈ runEvents p det t0 L →
      ev.stored = { state := ev.state, action := ev.action, reward := ev.reward,
                    nextState := ev.nextState, done := ev.done,
                    discount := 99 / 100 } ∧
      ev.executed = p.execAction ev.action ∧
      ev.updates = (if det || ev.totalStepsAfter < p.explorationSteps then 0
                    else p.updatesPerStep) := by
  intro L
  induction L with
  | nil => intro t0 ev h; simp [runEvents] at h
  | cons oc rest ih =>
      intro t0 ev h
      obtain ⟨o, c⟩ := oc
      rw [runEvents, List.mem_append] at h
      rcases h with h | h
      · exact stepEvents_mem p det c t0 o ev h
      · exact ih _ _ h

lemma stepEvents_length (p : TrainParams σ α) (det : Bool) :
    ∀ (c : List (StepResult σ)) (t0 : Nat) (o : σ),
      (stepEvents p det t0 o c).length = c.length := by
  intro c
  induction c with
  | nil => intro t0 o; rfl
  | cons sr rest ih => intro t0 o; simp [stepEvents, ih]

lemma runEvents_length (p : TrainParams σ α) (det : Bool) :
    ∀ (L : List (σ × List (StepResult σ))) (t0 : Nat),
      (runEvents p det t0 L).length = (L.map (fun x => x.2.length)).sum := by
  intro L
  induction L with
  | nil => intro t0; rfl
  | cons oc rest ih =>
      intro t0
      obtain ⟨o, c⟩ := oc
      simp [runEvents, stepEvents_length, ih]

lemma stepEvents_map_obs (p : TrainParams σ α) (det : Bool) :
    ∀ (c : List (StepResult σ)) (t0 : Nat) (o : σ),
      (stepEvents p det t0 o c).map
          (fun ev => (ev.state, ev.reward, ev.nextState, ev.done)) =
        ((statesOf o c).zip c).map
          (fun x => (x.1, x.2.reward, x.2.observation, x.2.done)) := by
  intro c
  induction c with
  | nil => intro t0 o; rfl
  | cons sr rest ih =>
      intro t0 o
      simp only [stepEvents, statesOf, List.zip_cons_cons, List.map_cons]
      rw [ih]

lemma runEvents_map_obs (p : TrainParams σ α) (det : Bool) :
    ∀ (L : List (σ × List (StepResult σ))) (t0 : Nat),
      (runEvents p det t0 L).map
          (fun ev => (ev.state, ev.reward, ev.nextState, ev.done)) =
        (L.map (fun x => ((statesOf x.1 x.2).zip x.2).map
          (fun y => (y.1, y.2.reward, y.2.observation, y.2.done)))).flatten := by
  intro L
  induction L with
  | nil => intro t0; rfl
  | cons oc rest ih =>
      intro t0
      obtain ⟨o, c⟩ := oc
      simp only [runEvents, List.map_append, List.map_cons, List.flatten_cons]
      rw [stepEvents_map_obs, ih]

/-! ### Lemmas: consumed steps and the evaluation loop -/

lemma consumedSteps_length_le :
    ∀ steps : List (StepResult σ), (consumedSteps steps).length ≤ steps.length := by
  intro steps
  induction steps with
  | nil => exact Nat.le_refl _
  | cons sr rest ih =>
      rw [consumedSteps]
      by_cases h : sr.done
      · simp [h]
      · simp only [h, Bool.false_eq_true, if_false, List.length_cons]
        omega

lemma consumedSteps_dropLast_not_done :
    ∀ steps : List (StepResult σ), ∀ sr ∈ (consumedSteps steps).dropLast,
      sr.done = false := by
  intro steps
  induction steps with
  | nil => intro sr h; simp [consumedSteps] at h
  | cons hd rest ih =>
      intro sr h
      rw [consumedSteps] at h
      by_cases hd' : hd.done
      · simp [hd'] at h
      · simp only [hd', Bool.false_eq_true, if_false] at h
        cases hc : consumedSteps rest with
        | nil => rw [hc] at h; simp at h
        | cons y ys =>
            rw [hc, List.dropLast_cons₂, List.mem_cons] at h
            rcases h with h | h
            · subst h
              simpa using hd'
            · exact ih sr (by rw [hc]; exact h)

lemma consumedSteps_getLast_done :
    ∀ steps : List (StepResult σ), steps.any (·.done) = true →
      ((consumedSteps steps).getLast?.map (·.done)) = some true := by
  intro steps
  induction steps with
  | nil => intro h; simp at h
  | cons hd rest ih =>
      intro h
      rw [consumedSteps]
      by_cases hd' : hd.done
      · simp [hd']
      · have hrest : rest.any (·.done) = true := by
          simpa [hd'] using h
        simp only [hd', Bool.false_eq_true, if_false]
        cases hc : consumedSteps rest with
        | nil => rw [hc] at ih; simpa using ih hrest
        | cons y ys =>
            rw [List.getLast?_cons_cons]
            rw [hc] at ih
            exact ih hrest

lemma evalSteps_spec (select : Nat → σ → α) (exec : α → ℚ) :
    ∀ (steps : List (StepResult σ)) (curObs : σ) (s : EvalState σ α),
      evalSteps select exec curObs steps s =
        { deterministic := s.deterministic,
          totalReward := s.totalReward + ((consumedSteps steps).map (·.reward)).sum,
          totalSteps := s.totalSteps + (consumedSteps steps).length,
          events := s.events ++
            evalEvents select exec s.totalSteps curObs (consumedSteps steps),
          finalPrint := if steps.any (·.done) then
              some (s.totalSteps + (consumedSteps steps).length,
                    s.totalReward + ((consumedSteps steps).map (·.reward)).sum)
            else s.finalPrint } := by
  intro steps
  induction steps with
  | nil => intro curObs s; simp [evalSteps, consumedSteps, evalEvents]
  | cons sr rest ih =>
      intro curObs s
      rw [evalSteps, consumedSteps]
      by_cases h : sr.done
      · simp [h, evalEvents]
      · simp only [h, Bool.false_eq_true, if_false]
        rw [ih]
        simp [h, evalEvents, List.append_assoc, add_assoc, Nat.add_assoc,
          Nat.add_comm 1]

lemma evalEvents_mem (select : Nat → σ → α) (exec : α → ℚ) :
    ∀ (c : List (StepResult σ)) (t0 : Nat) (o : σ) (ev : EvalEvent σ α),
      ev ∈ evalEvents select exec t0 o c → ev.executed = exec ev.action := by
  intro c
  induction c with
  | nil => intro t0 o ev h; simp [evalEvents] at h
  | cons sr rest ih =>
      intro t0 o ev h
      rw [evalEvents, List.mem_cons] at h
      rcases h with h | h
      · subst h; rfl
      · exact ih _ _ _ h

/-! ### Lemmas: the sliding window of episode returns -/

lemma lastN_length (n : Nat) (l : List ℚ) :
    (lastN n l).length = l.length - (l.length - n) := by
  simp [lastN]

lemma lastN_length_le (n : Nat) (l : List ℚ) : (lastN n l).length ≤ n := by
  rw [lastN_length]; omega

/-- Push-then-trim keeps exactly the last `N` entries: the step the training
loop performs on `returnList` maps `lastN N all` to `lastN N (all ++ [x])`. -/
lemma window_update (N : Nat) (all : List ℚ) (x : ℚ) :
    (if N < (lastN N all ++ [x]).length then (lastN N all ++ [x]).tail
     else lastN N all ++ [x]) = lastN N (all ++ [x]) := by
  by_cases hN : all.length < N
  · have h0 : all.length - N = 0 := by omega
    have h1 : all.length + 1 - N = 0 := by omega
    rw [if_neg (by rw [List.length_append, lastN_length]; simp; omega)]
    rw [lastN, lastN, h0, List.drop_zero, List.length_append, List.length_singleton,
      h1, List.drop_zero]
  · rw [if_pos (by rw [List.length_append, lastN_length]; simp; omega)]
    rw [← List.drop_one, lastN, lastN, List.drop_append_eq_append_drop,
      List.drop_drop, List.drop_append_eq_append_drop]
    simp only [List.length_append, List.length_singleton, List.length_drop]
    congr 1
    · congr 1
      omega
    · congr 1
      omega

lemma processSteps_snd_returnList (p : TrainParams σ α) (curObs : σ)
    (steps : List (StepResult σ)) (acc : ℚ) (s : TrainState σ α) :
    (processSteps p curObs steps acc s).2.returnList = s.returnList := by
  rw [processSteps_spec]

lemma processSteps_snd_allReturns (p : TrainParams σ α) (curObs : σ)
    (steps : List (StepResult σ)) (acc : ℚ) (s : TrainState σ α) :
    (processSteps p curObs steps acc s).2.allReturns = s.allReturns := by
  rw [processSteps_spec]

lemma processSteps_snd_logLines (p : TrainParams σ α) (curObs : σ)
    (steps : List (StepResult σ)) (acc : ℚ) (s : TrainState σ α) :
    (processSteps p curObs steps acc s).2.logLines = s.logLines := by
  rw [processSteps_spec]

lemma finishEpisode_window (p : TrainParams σ α) (r : ℚ × TrainState σ α)
    (h : r.2.returnList = lastN p.consecutiveEpisodes r.2.allReturns) :
    (finishEpisode p r).returnList =
      lastN p.consecutiveEpisodes (finishEpisode p r).allReturns := by
  rw [finishEpisode_returnList, finishEpisode_allReturns, h]
  exact window_update p.consecutiveEpisodes r.2.allReturns r.1

lemma finishEpisode_logLines_mem (p : TrainParams σ α) (r : ℚ × TrainState σ α) :
    ∀ line ∈ (finishEpisode p r).logLines, line ∈ r.2.logLines ∨
      (line.window = (finishEpisode p r).returnList ∧
       line.avgPrinted = line.window.sum / (line.window.length : ℚ) ∧
       line.printed = p.mkLine line.window.length line.avgPrinted
         line.episodesAt line.episodeReturnAt line.stepsAt) := by
  intro line hl
  unfold finishEpisode at hl ⊢
  dsimp only at hl ⊢
  by_cases hlog : ((r.2.episodes + 1) % p.logMod == 0) = true
  · rw [if_pos hlog] at hl ⊢
    simp only [List.mem_append, List.mem_singleton] at hl
    rcases hl with hl | hl
    · exact Or.inl hl
    · subst hl
      exact Or.inr ⟨rfl, rfl, rfl⟩
  · rw [if_neg hlog] at hl
    exact Or.inl hl

/-- Every progress line a run appends has its printed numbers laid out by
`mkLine` from the window data, and its average is the mean of its window. -/
lemma applyEpisodes_lines_shape (p : TrainParams σ α) :
    ∀ (L : List (σ × List (StepResult σ))) (s : TrainState σ α),
      ∀ line ∈ (applyEpisodes p s L).logLines, line ∈ s.logLines ∨
        (line.avgPrinted = line.window.sum / (line.window.length : ℚ) ∧
         line.printed = p.mkLine line.window.length line.avgPrinted
           line.episodesAt line.episodeReturnAt line.stepsAt) := by
  intro L
  induction L with
  | nil => intro s line hl; exact Or.inl hl
  | cons oc rest ih =>
      intro s line hl
      obtain ⟨o, c⟩ := oc
      rw [applyEpisodes] at hl
      rcases ih _ line hl with h | h
      · rcases finishEpisode_logLines_mem p _ line h with h' | h'
        · rw [processSteps_snd_logLines] at h'
          exact Or.inl h'
        · exact Or.inr ⟨h'.2.1, h'.2.2⟩
      · exact Or.inr h

/-- Whole-run window invariant: if `returnList` holds the most recent
returns on entry, it does after every episode of the run, and every line
printed during the run has a window of at most `consecutiveEpisodes`
entries. -/
lemma applyEpisodes_window (p : TrainParams σ α) :
    ∀ (L : List (σ × List (StepResult σ))) (s : TrainState σ α),
      s.returnList = lastN p.consecutiveEpisodes s.allReturns →
      ((applyEpisodes p s L).returnList =
         lastN p.consecutiveEpisodes (applyEpisodes p s L).allReturns ∧
       ∀ line ∈ (applyEpisodes p s L).logLines, line ∈ s.logLines ∨
         line.window.length ≤ p.consecutiveEpisodes) := by
  intro L
  induction L with
  | nil => intro s h; exact ⟨h, fun line hl => Or.inl hl⟩
  | cons oc rest ih =>
      intro s h
      obtain ⟨o, c⟩ := oc
      rw [applyEpisodes]
      have hinv1 : (processSteps p o c 0 s).2.returnList =
          lastN p.consecutiveEpisodes (processSteps p o c 0 s).2.allReturns := by
        rw [processSteps_snd_returnList, processSteps_snd_allReturns]
        exact h
      have hinv2 := finishEpisode_window p (processSteps p o c 0 s) hinv1
      refine ⟨(ih _ hinv2).1, fun line hl => ?_⟩
      rcases (ih _ hinv2).2 line hl with h' | h'
      · rcases finishEpisode_logLines_mem p _ line h' with h'' | h''
        · rw [processSteps_snd_logLines] at h''
          exact Or.inl h''
        · right
          rw [h''.1, hinv2]
          exact lastN_length_le _ _
      · exact Or.inr h'

lemma runEpisode_window (p : TrainParams σ α) (e : Episode σ) (s : TrainState σ α)
    (h : s.returnList = lastN p.consecutiveEpisodes s.allReturns) :
    (runEpisode p e s).returnList =
      lastN p.consecutiveEpisodes (runEpisode p e s).allReturns := by
  rw [runEpisode, runEpisodeSteps_eq_processSteps]
  apply finishEpisode_window
  rw [processSteps_snd_returnList, processSteps_snd_allReturns]
  exact h

/-! ### Lemmas: loop exit bounds -/

lemma runEpisode_totalSteps_eq (p : TrainParams σ α) (e : Episode σ)
    (s : TrainState σ α) :
    (runEpisode p e s).totalSteps =
      s.totalSteps + (consumedSteps (e.firstStep :: e.restSteps)).length := by
  rw [runEpisode, runEpisodeSteps_eq_processSteps, finishEpisode_totalSteps,
    processSteps_spec]

lemma runEpisode_episodes (p : TrainParams σ α) (e : Episode σ)
    (s : TrainState σ α) :
    (runEpisode p e s).episodes = s.episodes + 1 := by
  rw [runEpisode, runEpisodeSteps_eq_processSteps, finishEpisode_episodes,
    processSteps_spec]

lemma TrainLoop_of_ge (p : TrainParams σ α) (env : Nat → Episode σ)
    (numSteps : Nat) (fuel : Nat) (s : TrainState σ α)
    (h : ¬ s.totalSteps < numSteps) :
    TrainLoop p env numSteps fuel s = s := by
  cases fuel with
  | zero => rfl
  | succ f => simp [TrainLoop, h]

/-- While-loop exit bounds: starting below the budget with enough fuel, the
loop exits with at least `numSteps` total steps, and the overshoot is
bounded by the length of the episode it exits after (the episode of index
`episodes - 1` in the final state). -/
lemma TrainLoop_exit_bounds (p : TrainParams σ α) (env : Nat → Episode σ)
    (numSteps : Nat) :
    ∀ fuel (s : TrainState σ α), s.totalSteps < numSteps →
      numSteps ≤ s.totalSteps + fuel →
      numSteps ≤ (TrainLoop p env numSteps fuel s).totalSteps ∧
      (TrainLoop p env numSteps fuel s).totalSteps <
        numSteps + ((env ((TrainLoop p env numSteps fuel s).episodes - 1)).firstStep ::
          (env ((TrainLoop p env numSteps fuel s).episodes - 1)).restSteps).length := by
  intro fuel
  induction fuel with
  | zero => intro s h hf; omega
  | succ f ih =>
      intro s h hf
      simp only [TrainLoop, h, if_true]
      by_cases h' : (runEpisode p (env s.episodes) s).totalSteps < numSteps
      · have hs := runEpisode_totalSteps_lt p (env s.episodes) s
        exact ih _ h' (by omega)
      · rw [TrainLoop_of_ge p env numSteps f _ h']
        constructor
        · omega
        · have ht := runEpisode_totalSteps_eq p (env s.episodes) s
          have he := runEpisode_episodes p (env s.episodes) s
          have hc := consumedSteps_length_le
            ((env s.episodes).firstStep :: (env s.episodes).restSteps)
          rw [he]
          simp only [Nat.add_sub_cancel]
          simp only [List.length_cons] at hc ⊢
          omega

/-! ### Claim theorems -/

/-- C2: during training, every environment step passes exactly one
transition to `replayMethod.Store` — the tuple (current state, selected
action, reward, next state, done flag, discount 0.99) — and increments the
agent's total step counter by exactly one, whether or not an update runs:
the `Store`-call trace of a run is exactly one call per step event, each
call's tuple is the event's data, the total-step counter grows by exactly
the number of step events, and the events' (state, reward, next state,
done) columns are exactly the environment trace with states chained from
each reset observation. -/
theorem claim_C2_store_per_step (p : TrainParams σ α) (env : Nat → Episode σ)
    (numSteps : Nat) (s : TrainState σ α) :
    (Train p env numSteps s).storeCalls = s.storeCalls ++
        (runEvents p false s.totalSteps
          (TrainEpisodes env numSteps s.totalSteps s.episodes)).map (·.stored) ∧
    (Train p env numSteps s).events = s.events ++
        runEvents p false s.totalSteps
          (TrainEpisodes env numSteps s.totalSteps s.episodes) ∧
    (Train p env numSteps s).totalSteps = s.totalSteps +
        (runEvents p false s.totalSteps
          (TrainEpisodes env numSteps s.totalSteps s.episodes)).length ∧
    (∀ ev ∈ runEvents p false s.totalSteps
        (TrainEpisodes env numSteps s.totalSteps s.episodes),
        ev.stored = { state := ev.state, action := ev.action, reward := ev.reward,
                      nextState := ev.nextState, done := ev.done,
                      discount := 99 / 100 }) ∧
    (runEvents p false s.totalSteps
        (TrainEpisodes env numSteps s.totalSteps s.episodes)).map
        (fun ev => (ev.state, ev.reward, ev.nextState, ev.done)) =
      ((TrainEpisodes env numSteps s.totalSteps s.episodes).map
        (fun x => ((statesOf x.1 x.2).zip x.2).map
          (fun y => (y.1, y.2.reward, y.2.observation, y.2.done)))).flatten := by
  refine ⟨Train_storeCalls p env numSteps s, Train_events p env numSteps s, ?_,
    fun ev h => (runEvents_mem p false _ _ ev h).1, runEvents_map_obs p false _ _⟩
  rw [Train_totalSteps, runEvents_length]

/-- C2 witness: the single-step mountain-car run stores its one transition
and the store call carries the step's data. -/
theorem claim_C2_witness :
    (Train mcParams0 mcEnv1 1 (initState (Obs mcStateDimension) ℚ)).storeCalls =
      (initState (Obs mcStateDimension) ℚ).storeCalls ++
        (runEvents mcParams0 false 0 (TrainEpisodes mcEnv1 1 0 0)).map (·.stored) ∧
    mcEv0.stored = { state := mcEv0.state, action := mcEv0.action,
                     reward := mcEv0.reward, nextState := mcEv0.nextState,
                     done := mcEv0.done, discount := 99 / 100 } :=
  ⟨(claim_C2_store_per_step mcParams0 mcEnv1 1 (initState (Obs mcStateDimension) ℚ)).1,
   (claim_C2_store_per_step mcParams0 mcEnv1 1 (initState (Obs mcStateDimension) ℚ)).2.2.2.1
     mcEv0 (by norm_num [runEvents, stepEvents, TrainEpisodes, TrainEpisodesF,
       consumedSteps, mcEnv1, mcParams0, mcParams, mcEv0, obs2, initState])⟩

/-- C3: no learning update is invoked on a step whose (post-increment)
total step count is below `config.ExplorationSteps()`; on any later step of
a training run exactly `updatesPerStep` update calls happen, which is 1 in
the lander wiring (its single `TrainAgent()` call) and
`config.UpdateInterval()` in the mountain-car wiring (its update loop). -/
theorem claim_C3_update_gating (p : TrainParams σ α) (env : Nat → Episode σ)
    (numSteps : Nat) (s : TrainState σ α) :
    (∀ ev ∈ (Train p env numSteps s).events, ev ∈ s.events ∨
       ((ev.totalStepsAfter < p.explorationSteps → ev.updates = 0) ∧
        (p.explorationSteps ≤ ev.totalStepsAfter →
          ev.updates = p.updatesPerStep))) ∧
    (∀ (select : Nat → Obs stateDimension → Fin actionSize) (expl N : Nat),
      (landerParams select expl N).updatesPerStep = 1) ∧
    (∀ (select : Nat → Obs mcStateDimension → ℚ) (expl ui N : Nat),
      (mcParams select expl ui N).updatesPerStep = ui) := by
  refine ⟨fun ev h => ?_, fun _ _ _ => rfl, fun _ _ _ _ => rfl⟩
  rw [Train_events, List.mem_append] at h
  rcases h with h | h
  · exact Or.inl h
  · right
    have law := (runEvents_mem p false _ _ ev h).2.2
    simp only [Bool.false_or] at law
    constructor
    · intro hlt
      rw [law, if_pos (by exact decide_eq_true hlt)]
    · intro hge
      rw [law, if_neg (by simp; omega)]

/-- C3 witness: the first step of a lander run with
`ExplorationSteps = 100` performs no update. -/
theorem claim_C3_witness : landerEv0.updates = 0 :=
  (((claim_C3_update_gating landerParams0 landerEnv1 1
        (initState (Obs stateDimension) (Fin actionSize))).1 landerEv0
      (by norm_num [Train_events, runEvents, stepEvents, TrainEpisodes,
        TrainEpisodesF, consumedSteps, landerEnv1, landerParams0, landerParams,
        landerEv0, obs8, initState])).resolve_left
    (by simp [initState])).1 (by decide)

/-- C4: the episode return recorded at the end of each training episode is
the sum of the rewards of that episode's steps, and the per-episode
accumulator starts from zero at each reset: the recorded-return trace of a
run is exactly the per-episode reward sums, and one do-while pass started
with accumulator 0 returns the consumed rewards' sum. -/
theorem claim_C4_episode_return_sum (p : TrainParams σ α)
    (env : Nat → Episode σ) (numSteps : Nat) (s : TrainState σ α) :
    (Train p env numSteps s).allReturns = s.allReturns ++
        (TrainEpisodes env numSteps s.totalSteps s.episodes).map
          (fun x => ((x.2.map (·.reward)).sum : ℚ)) ∧
    (∀ (curObs : σ) (steps : List (StepResult σ)) (s' : TrainState σ α),
        (runEpisodeSteps p curObs steps 0 s').1 =
          ((consumedSteps steps).map (·.reward)).sum) := by
  refine ⟨Train_allReturns p env numSteps s, fun curObs steps s' => ?_⟩
  rw [runEpisodeSteps_eq_processSteps, processSteps_spec]
  exact zero_add _

/-- C7: the lander program works on 8-entry observations and selects a
discrete action index among 4 possibilities; the mountain-car program works
on 2-entry observations and produces a single continuous scalar action. -/
theorem claim_C7_dimensions :
    stateDimension = 8 ∧ actionSize = 4 ∧
    mcStateDimension = 2 ∧ mcActionSize = 1 ∧
    Fintype.card (Fin actionSize) = 4 ∧
    (∀ o : Obs stateDimension, o.val.length = 8) ∧
    (∀ o : Obs mcStateDimension, o.val.length = 2) :=
  ⟨rfl, rfl, rfl, rfl, by simp [actionSize], fun o => o.property,
   fun o => o.property⟩

/-- C9: `numSteps` bounds the agent's persistent cumulative step counter,
not the steps of one call: a `Train` call whose budget is already reached
on entry changes nothing but the deterministic flag (zero episodes run),
and a call entered below budget runs until the cumulative counter reaches
`numSteps`. -/
theorem claim_C9_budget_is_cumulative (p : TrainParams σ α)
    (env : Nat → Episode σ) (numSteps : Nat) (s : TrainState σ α) :
    (numSteps ≤ s.totalSteps →
      Train p env numSteps s = { s with deterministic := false }) ∧
    (s.totalSteps < numSteps →
      numSteps ≤ (Train p env numSteps s).totalSteps) := by
  constructor
  · intro h
    rw [Train]
    have h0 : numSteps - s.totalSteps = 0 := by omega
    rw [h0]
    rfl
  · intro h
    rw [Train]
    exact (TrainLoop_exit_bounds p env numSteps (numSteps - s.totalSteps)
      { s with deterministic := false } h
      (by show numSteps ≤ s.totalSteps + (numSteps - s.totalSteps); omega)).1

/-- C9 witness: with the budget already met (5 steps taken, budget 1) the
call is a no-op apart from clearing the deterministic flag, and from below
budget the counter reaches the budget. -/
theorem claim_C9_witness :
    Train mcParams0 mcEnv1 1
        ({ initState (Obs mcStateDimension) ℚ with totalSteps := 5 }) =
      { ({ initState (Obs mcStateDimension) ℚ with totalSteps := 5 }) with
          deterministic := false } ∧
    1 ≤ (Train mcParams0 mcEnv1 1 (initState (Obs mcStateDimension) ℚ)).totalSteps :=
  ⟨(claim_C9_budget_is_cumulative mcParams0 mcEnv1 1 _).1 (by decide),
   (claim_C9_budget_is_cumulative mcParams0 mcEnv1 1 _).2 (by decide)⟩

/-- C10: `Train` checks its budget only at episode boundaries: with every
episode of the trace reaching `done` and the entry counter below
`numSteps`, the returned counter is at least `numSteps` and exceeds it by
less than the length of the final episode processed (index
`episodes - 1`). -/
theorem claim_C10_exit_bounds (p : TrainParams σ α) (env : Nat → Episode σ)
    (numSteps : Nat) (s : TrainState σ α)
    (_hdone : ∀ i, ((env i).firstStep :: (env i).restSteps).any (·.done) = true)
    (hlt : s.totalSteps < numSteps) :
    numSteps ≤ (Train p env numSteps s).totalSteps ∧
    (Train p env numSteps s).totalSteps < numSteps +
      ((env ((Train p env numSteps s).episodes - 1)).firstStep ::
        (env ((Train p env numSteps s).episodes - 1)).restSteps).length := by
  rw [Train]
  exact TrainLoop_exit_bounds p env numSteps (numSteps - s.totalSteps)
    { s with deterministic := false } hlt
    (by show numSteps ≤ s.totalSteps + (numSteps - s.totalSteps); omega)

/-- C10 witness: a run over single-step episodes with budget 2 exits at
exactly 2 steps, within one final-episode length of the budget. -/
theorem claim_C10_witness :
    2 ≤ (Train mcParams0 mcEnv1 2 (initState (Obs mcStateDimension) ℚ)).totalSteps ∧
    (Train mcParams0 mcEnv1 2 (initState (Obs mcStateDimension) ℚ)).totalSteps < 2 +
      ((mcEnv1 ((Train mcParams0 mcEnv1 2
          (initState (Obs mcStateDimension) ℚ)).episodes - 1)).firstStep ::
        (mcEnv1 ((Train mcParams0 mcEnv1 2
          (initState (Obs mcStateDimension) ℚ)).episodes - 1)).restSteps).length :=
  claim_C10_exit_bounds mcParams0 mcEnv1 2 (initState (Obs mcStateDimension) ℚ)
    (fun _ => rfl) (by decide)

/-- C1: after every completed training episode the return list holds at
most `consecutiveEpisodes` entries — exactly the most recent recorded
returns, oldest dropped first (`lastN` of the full record) — and every
progress line's average is the arithmetic mean of the window it was
printed from, a window of at most `consecutiveEpisodes` entries.  The
window property is stated for one episode step (`runEpisode`) and for a
whole `Train` call. -/
theorem claim_C1_window_and_average (p : TrainParams σ α)
    (env : Nat → Episode σ) (numSteps : Nat) (s : TrainState σ α)
    (h : s.returnList = lastN p.consecutiveEpisodes s.allReturns) :
    (∀ (e : Episode σ) (s' : TrainState σ α),
        s'.returnList = lastN p.consecutiveEpisodes s'.allReturns →
        ((runEpisode p e s').returnList =
            lastN p.consecutiveEpisodes (runEpisode p e s').allReturns ∧
         (runEpisode p e s').returnList.length ≤ p.consecutiveEpisodes)) ∧
    (∀ (e : Episode σ) (s' : TrainState σ α),
        ∀ line ∈ (runEpisode p e s').logLines, line ∈ s'.logLines ∨
          (line.window = (runEpisode p e s').returnList ∧
           line.avgPrinted = line.window.sum / (line.window.length : ℚ))) ∧
    (Train p env numSteps s).returnList =
        lastN p.consecutiveEpisodes (Train p env numSteps s).allReturns ∧
    (Train p env numSteps s).returnList.length ≤ p.consecutiveEpisodes ∧
    (∀ line ∈ (Train p env numSteps s).logLines, line ∈ s.logLines ∨
        (line.avgPrinted = line.window.sum / (line.window.length : ℚ) ∧
         line.window.length ≤ p.consecutiveEpisodes)) := by
  have hset : ({ s with deterministic := false } : TrainState σ α).returnList =
      lastN p.consecutiveEpisodes
        ({ s with deterministic := false } : TrainState σ α).allReturns := h
  have hwin := applyEpisodes_window p
    (TrainEpisodesF env numSteps (numSteps - s.totalSteps) s.totalSteps s.episodes)
    { s with deterministic := false } hset
  have hTr : Train p env numSteps s =
      applyEpisodes p { s with deterministic := false }
        (TrainEpisodesF env numSteps (numSteps - s.totalSteps) s.totalSteps
          s.episodes) := by
    rw [Train, TrainLoop_eq_applyEpisodes]
  refine ⟨fun e s' h' => ⟨runEpisode_window p e s' h', ?_⟩,
    fun e s' line hl => ?_, ?_, ?_, ?_⟩
  · rw [runEpisode_window p e s' h']
    exact lastN_length_le _ _
  · rw [runEpisode] at hl
    rcases finishEpisode_logLines_mem p _ line hl with h' | h'
    · left
      rw [runEpisodeSteps_eq_processSteps, processSteps_snd_logLines] at h'
      exact h'
    · right
      rw [runEpisode]
      exact ⟨h'.1, h'.2.1⟩
  · rw [hTr]
    exact hwin.1
  · rw [hTr, hwin.1]
    exact lastN_length_le _ _
  · intro line hl
    rw [hTr] at hl
    have hshape := applyEpisodes_lines_shape p _ _ line hl
    have hlen := hwin.2 line hl
    rcases hshape with hs' | hs'
    · exact Or.inl hs'
    · rcases hlen with hl' | hl'
      · exact Or.inl hl'
      · exact Or.inr ⟨hs'.1, hl'⟩

/-- C1 witness: starting from the empty window, after a two-episode
mountain-car run the return list is the last 25 recorded returns and holds
at most 25 entries. -/
theorem claim_C1_witness :
    (Train mcParams0 mcEnv1 2 (initState (Obs mcStateDimension) ℚ)).returnList =
      lastN 25 (Train mcParams0 mcEnv1 2
        (initState (Obs mcStateDimension) ℚ)).allReturns ∧
    (Train mcParams0 mcEnv1 2
        (initState (Obs mcStateDimension) ℚ)).returnList.length ≤ 25 :=
  ⟨(claim_C1_window_and_average mcParams0 mcEnv1 2
      (initState (Obs mcStateDimension) ℚ) rfl).2.2.1,
   (claim_C1_window_and_average mcParams0 mcEnv1 2
      (initState (Obs mcStateDimension) ℚ) rfl).2.2.2.1⟩

/-- C6: an evaluation run sets the deterministic flag before the loop,
consumes environment replies up to and including the first `done`, and at
that point prints exactly the number of steps taken and the sum of the
per-step rewards received. -/
theorem claim_C6_evaluation_run (select : Nat → σ → α) (exec : α → ℚ)
    (e : Episode σ)
    (hdone : (e.firstStep :: e.restSteps).any (·.done) = true) :
    (Evaluate select exec e).deterministic = true ∧
    (Evaluate select exec e).finalPrint =
      some ((consumedSteps (e.firstStep :: e.restSteps)).length,
            ((consumedSteps (e.firstStep :: e.restSteps)).map (·.reward)).sum) ∧
    (Evaluate select exec e).totalReward =
      ((consumedSteps (e.firstStep :: e.restSteps)).map (·.reward)).sum ∧
    (Evaluate select exec e).totalSteps =
      (consumedSteps (e.firstStep :: e.restSteps)).length ∧
    (∀ sr ∈ (consumedSteps (e.firstStep :: e.restSteps)).dropLast,
      sr.done = false) ∧
    ((consumedSteps (e.firstStep :: e.restSteps)).getLast?.map (·.done)) =
      some true := by
  rw [Evaluate, evalSteps_spec]
  refine ⟨rfl, ?_, zero_add _, Nat.zero_add _,
    consumedSteps_dropLast_not_done _,
    consumedSteps_getLast_done _ hdone⟩
  dsimp only
  rw [if_pos hdone, Nat.zero_add, zero_add]

/-- C6 witness: evaluating on a single-step episode with reward 1 prints
one step and total reward 1. -/
theorem claim_C6_witness :
    (Evaluate (fun _ _ => (0 : ℚ)) mcExec (mcEnv1 0)).deterministic = true ∧
    (Evaluate (fun _ _ => (0 : ℚ)) mcExec (mcEnv1 0)).finalPrint =
      some ((consumedSteps ((mcEnv1 0).firstStep :: (mcEnv1 0).restSteps)).length,
            ((consumedSteps ((mcEnv1 0).firstStep ::
              (mcEnv1 0).restSteps)).map (·.reward)).sum) :=
  ⟨(claim_C6_evaluation_run (fun _ _ => (0 : ℚ)) mcExec (mcEnv1 0) (by decide)).1,
   (claim_C6_evaluation_run (fun _ _ => (0 : ℚ)) mcExec (mcEnv1 0) (by decide)).2.1⟩

/-- C8 (amended): in the mountain-car program the scalar sent to the
environment at every training and evaluation step is the agent's selected
action times 2, while the stored transition records the unscaled selected
action; the stored action therefore differs from the executed scalar at
every step whose selected action is nonzero (at a step selecting exactly 0
the two coincide). -/
theorem claim_C8_action_scaling :
    (∀ (select : Nat → Obs mcStateDimension → ℚ) (expl ui N : Nat)
       (env : Nat → Episode (Obs mcStateDimension)) (numSteps : Nat)
       (s : TrainState (Obs mcStateDimension) ℚ),
       ∀ ev ∈ (Train (mcParams select expl ui N) env numSteps s).events,
         ev ∈ s.events ∨
           (ev.executed = ev.stored.action * 2 ∧ ev.stored.action = ev.action ∧
            (ev.action ≠ 0 → ev.stored.action ≠ ev.executed))) ∧
    (∀ (select : Nat → Obs mcStateDimension → ℚ)
       (e : Episode (Obs mcStateDimension)),
       ∀ ev ∈ (Evaluate select mcExec e).events, ev.executed = ev.action * 2) := by
  constructor
  · intro select expl ui N env numSteps s ev h
    rw [Train_events, List.mem_append] at h
    rcases h with h | h
    · exact Or.inl h
    · right
      obtain ⟨hst, hex, -⟩ := runEvents_mem (mcParams select expl ui N) false _ _ ev h
      have hact : ev.stored.action = ev.action := by rw [hst]
      have hex' : ev.executed = ev.action * 2 := hex
      refine ⟨by rw [hex', hact], hact, fun hne => ?_⟩
      rw [hact, hex']
      intro heq
      apply hne
      linarith
  · intro select e ev h
    rw [Evaluate, evalSteps_spec] at h
    dsimp only at h
    simp only [List.nil_append] at h
    exact evalEvents_mem select mcExec _ _ _ ev h

/-- C8 witness: at the single step of a mountain-car run the stored action
is the selected action and the executed scalar is its double. -/
theorem claim_C8_witness :
    mcEv0.executed = mcEv0.stored.action * 2 ∧ mcEv0.stored.action = mcEv0.action :=
  ⟨(((claim_C8_action_scaling).1 (fun _ _ => 0) 3200 1 25 mcEnv1 1
        (initState (Obs mcStateDimension) ℚ) mcEv0
        (by norm_num [Train_events, runEvents, stepEvents, TrainEpisodes,
          TrainEpisodesF, consumedSteps, mcEnv1, mcParams, mcEv0, obs2,
          initState])).resolve_left (by simp [initState])).1,
   (((claim_C8_action_scaling).1 (fun _ _ => 0) 3200 1 25 mcEnv1 1
        (initState (Obs mcStateDimension) ℚ) mcEv0
        (by norm_num [Train_events, runEvents, stepEvents, TrainEpisodes,
          TrainEpisodesF, consumedSteps, mcEnv1, mcParams, mcEv0, obs2,
          initState])).resolve_left (by simp [initState])).2.1⟩

/-- C8 counterexample: the claim's conclusion that the stored action always
differs from the executed action fails on a run whose selected action is 0:
there the transition stores 0 and the environment receives 0. -/
theorem claim_C8_counterexample :
    ¬ (∀ ev ∈ (Train (mcParams (fun _ _ => 0) 3200 1 25) mcEnv1 1
        (initState (Obs mcStateDimension) ℚ)).events,
        ev.stored.action ≠ ev.executed) := by
  intro hall
  have hev : mcEv0 ∈ (Train (mcParams (fun _ _ => 0) 3200 1 25) mcEnv1 1
      (initState (Obs mcStateDimension) ℚ)).events := by
    norm_num [Train_events, runEvents, stepEvents, TrainEpisodes,
      TrainEpisodesF, consumedSteps, mcEnv1, mcParams, mcEv0, obs2, initState]
  exact hall mcEv0 hev (by norm_num [mcEv0])

/-- C5 (amended): every periodic progress line contains the average return
over the tracked window and the step count; the lander's lines also
contain the episode count, while the mountain-car's lines contain the
window size and the episode return but not, in general, the episode
count. -/
theorem claim_C5_progress_line_contents :
    (∀ (select : Nat → Obs stateDimension → Fin actionSize) (expl N : Nat)
       (env : Nat → Episode (Obs stateDimension)) (numSteps : Nat)
       (s : TrainState (Obs stateDimension) (Fin actionSize)),
       ∀ line ∈ (Train (landerParams select expl N) env numSteps s).logLines,
         line ∈ s.logLines ∨
           ((line.episodesAt : ℚ) ∈ line.printed ∧
            line.avgPrinted ∈ line.printed ∧
            (line.stepsAt : ℚ) ∈ line.printed)) ∧
    (∀ (select : Nat → Obs mcStateDimension → ℚ) (expl ui N : Nat)
       (env : Nat → Episode (Obs mcStateDimension)) (numSteps : Nat)
       (s : TrainState (Obs mcStateDimension) ℚ),
       ∀ line ∈ (Train (mcParams select expl ui N) env numSteps s).logLines,
         line ∈ s.logLines ∨
           ((line.window.length : ℚ) ∈ line.printed ∧
            line.avgPrinted ∈ line.printed ∧
            line.episodeReturnAt ∈ line.printed ∧
            (line.stepsAt : ℚ) ∈ line.printed)) := by
  constructor
  · intro select expl N env numSteps s line hl
    rw [Train, TrainLoop_eq_applyEpisodes] at hl
    rcases applyEpisodes_lines_shape _ _ _ line hl with h | h
    · exact Or.inl h
    · right
      rw [h.2]
      refine ⟨?_, ?_, ?_⟩ <;> simp [landerParams]
  · intro select expl ui N env numSteps s line hl
    rw [Train, TrainLoop_eq_applyEpisodes] at hl
    rcases applyEpisodes_lines_shape _ _ _ line hl with h | h
    · exact Or.inl h
    · right
      rw [h.2]
      refine ⟨?_, ?_, ?_, ?_⟩ <;> simp [mcParams]

/-- C5 witness: the line printed after the fifth episode of a lander run
contains its episode count. -/
theorem claim_C5_witness : (line5.episodesAt : ℚ) ∈ line5.printed :=
  (((claim_C5_progress_line_contents).1 (fun _ _ => ⟨0, by decide⟩) 100 50
      landerEnv1 5 (initState (Obs stateDimension) (Fin actionSize)) line5
      (by norm_num [Train, TrainLoop, runEpisode, runEpisodeSteps, runStep,
        finishEpisode, landerParams, landerEnv1, initState, obs8,
        line5])).resolve_left (by simp [initState])).1

set_option maxRecDepth 4000 in
set_option maxHeartbeats 4000000 in
/-- C5 counterexample: in the mountain-car driver the printed line holds
the window size, not the episode count: after 28 two-step episodes the
line reads window 25, average 7, episode return 7, steps 56, and the
episode count 28 appears nowhere in it. -/
theorem claim_C5_counterexample :
    ¬ (∀ line ∈ (Train (mcParams (fun _ _ => 0) 3200 1 25) mcEnv2 56
        (initState (Obs mcStateDimension) ℚ)).logLines,
        (line.episodesAt : ℚ) ∈ line.printed) := by
  intro hall
  have hlast : ((Train (mcParams (fun _ _ => 0) 3200 1 25) mcEnv2 56
      (initState (Obs mcStateDimension) ℚ)).logLines.getLast?).map
        (fun l => ((l.episodesAt : ℚ), l.printed)) =
      some ((28 : ℚ), [25, 7, 7, 56]) := by
    norm_num [Train, TrainLoop, runEpisode, runEpisodeSteps, runStep,
      finishEpisode, mcParams, mcEnv2, mcStateDimension, initState, obs2]
  cases hgl : (Train (mcParams (fun _ _ => 0) 3200 1 25) mcEnv2 56
      (initState (Obs mcStateDimension) ℚ)).logLines.getLast? with
  | none => rw [hgl] at hlast; simp at hlast
  | some l =>
      have hmem : l ∈ (Train (mcParams (fun _ _ => 0) 3200 1 25) mcEnv2 56
          (initState (Obs mcStateDimension) ℚ)).logLines := by
        obtain ⟨hne, heq⟩ := List.mem_getLast?_eq_getLast (l := (Train
          (mcParams (fun _ _ => 0) 3200 1 25) mcEnv2 56
          (initState (Obs mcStateDimension) ℚ)).logLines) (x := l) hgl
        rw [heq]
        exact List.getLast_mem hne
      rw [hgl] at hlast
      simp only [Option.map_some', Option.some.injEq, Prod.mk.injEq] at hlast
      have hin := hall l hmem
      rw [hlast.1, hlast.2] at hin
      norm_num at hin

end RLGym
